import Mathlib

/-!
Verification of the text-engineering pipeline of the react-vite-translator
repository: the TRADOS formatter (`src/lib/tradosFormatter.ts`), the chunkers
and the translation dispatcher (`src/lib/gemini.ts`, `src/lib/longTranslation.ts`),
the terminology auto-extractor (`src/components/TranslatorInterface.tsx`) and
the default-rule-set transition (`src/components/FormattingRulesManager.tsx`).

JavaScript strings are modelled as `List Char`; every definition is a direct
transcription of the corresponding source function.
-/

/-- Strings are modelled as lists of characters. -/
abbrev Str := List Char

/-- Convert a Lean string literal to the model type. -/
def toL (s : String) : Str := s.toList

/-- Whitespace class used by JavaScript `trim`, the regex `\s` and `split(/\s+/)`
(restricted to the characters that can actually occur in the texts handled here). -/
def isWS (c : Char) : Bool :=
  c = ' ' || c = '\t' || c = '\n' || c = '\r' || c = '\x0b' || c = '\x0c' || c = '\u00A0'

/-- Model of JavaScript `String.prototype.trim`. -/
def jsTrim (l : Str) : Str :=
  ((l.dropWhile isWS).reverse.dropWhile isWS).reverse

/-- The non-whitespace content of a string (used to state reconstruction
"up to whitespace insertion/removal"). -/
def noWS (l : Str) : Str := l.filter (fun c => !isWS c)

/-- Model of `replace(/\s+/g, " ")`: collapse every whitespace run to a single
space.  The boolean flag records whether we are inside a run whose space has
already been emitted. -/
def normalizeWSAux : Bool → Str → Str
  | _, [] => []
  | inRun, c :: rest =>
    if isWS c then
      if inRun then normalizeWSAux true rest
      else ' ' :: normalizeWSAux true rest
    else c :: normalizeWSAux false rest

/-- Collapse whitespace runs to single spaces (`replace(/\s+/g, " ")`). -/
def normalizeWS (l : Str) : Str := normalizeWSAux false l

/- ---------- cleanTextForTrados (tradosFormatter.ts lines 23-38) ---------- -/

/-- The `cleaning` sub-object of the `TradosRules` interface (supabase.ts). -/
structure CleaningRules where
  removeMultipleSpaces : Bool
  removeOptionalHyphens : Bool
  replaceManualLineBreaks : Bool
deriving DecidableEq, Repr

/-- The `tabs` sub-object of the `TradosRules` interface (supabase.ts). -/
structure TabRules where
  useTabsAfterManualNumbers : Bool
deriving DecidableEq, Repr

/-- The parts of the `TradosRules` interface consumed by the parsing /
cleaning stage of `tradosFormatter.ts`. -/
structure TradosRules where
  cleaning : CleaningRules
  tabs : TabRules
deriving DecidableEq, Repr

/-- The cleaning and tab settings of `MK_TRADOS_RULES` (supabase.ts). -/
def mkTradosRules : TradosRules :=
  { cleaning := { removeMultipleSpaces := true, removeOptionalHyphens := true,
                  replaceManualLineBreaks := true }
    tabs := { useTabsAfterManualNumbers := true } }

/-- Model of `out.replace(/­/g, "")`: delete every soft hyphen. -/
def removeSoftHyphens (l : Str) : Str := l.filter (fun c => c ≠ '\u00AD')

/-- Model of `replace(/ {5}/g, " ")`. -/
def collapse5 : Str → Str
  | ' ' :: ' ' :: ' ' :: ' ' :: ' ' :: rest => ' ' :: collapse5 rest
  | c :: rest => c :: collapse5 rest
  | [] => []

/-- Model of `replace(/ {4}/g, " ")`. -/
def collapse4 : Str → Str
  | ' ' :: ' ' :: ' ' :: ' ' :: rest => ' ' :: collapse4 rest
  | c :: rest => c :: collapse4 rest
  | [] => []

/-- Model of `replace(/ {3}/g, " ")`. -/
def collapse3 : Str → Str
  | ' ' :: ' ' :: ' ' :: rest => ' ' :: collapse3 rest
  | c :: rest => c :: collapse3 rest
  | [] => []

/-- Model of `replace(/ {2}/g, " ")`. -/
def collapse2 : Str → Str
  | ' ' :: ' ' :: rest => ' ' :: collapse2 rest
  | c :: rest => c :: collapse2 rest
  | [] => []

/-- `cleanTextForTrados` (tradosFormatter.ts lines 23-38): optionally remove
soft hyphens, optionally collapse space runs by the four successive
`replace(/ {5}/g ... / {2}/g)` passes, then `trim`. -/
def cleanTextForTrados (rules : TradosRules) (text : Str) : Str :=
  let t1 := if rules.cleaning.removeOptionalHyphens then removeSoftHyphens text else text
  let t2 := if rules.cleaning.removeMultipleSpaces then
      collapse2 (collapse3 (collapse4 (collapse5 t1))) else t1
  jsTrim t2

example : cleanTextForTrados mkTradosRules (toL "  a   b­c  ") = toL "a bc" := by decide

example :
    cleanTextForTrados mkTradosRules
      (cleanTextForTrados mkTradosRules ('a' :: List.replicate 39 ' ' ++ toL "b")) ≠
    cleanTextForTrados mkTradosRules ('a' :: List.replicate 39 ' ' ++ toL "b") := by decide

/- ---------- escapeHtml (tradosFormatter.ts lines 316-320) ---------- -/

/-- Encoding of one character under the DOM text-node serialization performed
by `escapeHtml` (`div.textContent = text; return div.innerHTML`). -/
def escapeChar (c : Char) : Str :=
  if c = '&' then toL "&amp;"
  else if c = '\u00A0' then toL "&nbsp;"
  else if c = '<' then toL "&lt;"
  else if c = '>' then toL "&gt;"
  else [c]

/-- `escapeHtml` (tradosFormatter.ts lines 316-320). -/
def escapeHtml (text : Str) : Str := text.flatMap escapeChar

/-- Every ampersand in the string starts one of the entities produced by the
serializer (`&amp;` `&lt;` `&gt;` `&nbsp;`); i.e. no "raw" ampersand occurs. -/
def ampOk : Str → Bool
  | [] => true
  | c :: rest =>
    if c = '&' then
      match rest with
      | 'a' :: 'm' :: 'p' :: ';' :: r => ampOk r
      | 'l' :: 't' :: ';' :: r => ampOk r
      | 'g' :: 't' :: ';' :: r => ampOk r
      | 'n' :: 'b' :: 's' :: 'p' :: ';' :: r => ampOk r
      | _ => false
    else ampOk rest

/-- One emitted paragraph: `<p class="CLS">CONTENT</p>`. -/
def pTag (cls content : Str) : Str :=
  toL "<p class=\"" ++ cls ++ toL "\">" ++ content ++ toL "</p>"

/- ---------- markers, tabs and classification (tradosFormatter.ts) ---------- -/

/-- The letter class `[A-Za-zА-Яа-яα-ω]` with the `/i` flag (which folds the
uppercase Greek range into `[α-ω]`; the Cyrillic range already contains both
cases and `[A-Za-z]` is symmetric). -/
def isMarkerLetter (c : Char) : Bool :=
  ('A' ≤ c && c ≤ 'Z') || ('a' ≤ c && c ≤ 'z') ||
  ('А' ≤ c && c ≤ 'я') || ('α' ≤ c && c ≤ 'ω') ||
  ('Α' ≤ c && c ≤ 'Ω')

/-- Model of `replace(/^(\(\d+\))\s*/, "$1\t")`. -/
def tabParenNum (s : Str) : Str :=
  match s with
  | '(' :: rest =>
    let ds := rest.takeWhile Char.isDigit
    if ds = [] then s
    else
      match rest.drop ds.length with
      | ')' :: rest2 => '(' :: (ds ++ ')' :: '\t' :: rest2.dropWhile isWS)
      | _ => s
  | _ => s

/-- Model of `replace(/^(\d+\.)\s*/, "$1\t")`. -/
def tabNumDot (s : Str) : Str :=
  let ds := s.takeWhile Char.isDigit
  if ds = [] then s
  else
    match s.drop ds.length with
    | '.' :: rest => ds ++ '.' :: '\t' :: rest.dropWhile isWS
    | _ => s

/-- Model of `replace(/^(\([A-Za-zА-Яа-яα-ω]\))\s*/i, "$1\t")`. -/
def tabParenLetter (s : Str) : Str :=
  match s with
  | '(' :: c :: ')' :: rest =>
    if isMarkerLetter c then '(' :: c :: ')' :: '\t' :: rest.dropWhile isWS else s
  | _ => s

/-- Model of `replace(/^(—)\s*/, "$1\t")`. -/
def tabEmDash (s : Str) : Str :=
  match s with
  | '—' :: rest => '—' :: '\t' :: rest.dropWhile isWS
  | _ => s

/-- The four tab-insertion replacements in source order (tradosFormatter.ts
lines 96-102 and 156-162). -/
def applyTabs (s : Str) : Str := tabEmDash (tabParenLetter (tabNumDot (tabParenNum s)))

/-- Test `/^\d+\./`. -/
def startsNumDot (s : Str) : Bool :=
  let ds := s.takeWhile Char.isDigit
  ds ≠ [] && (s.drop ds.length).head? = some '.'

/-- Test `/^\(\d+\)/`. -/
def startsParenNum (s : Str) : Bool :=
  match s with
  | '(' :: rest =>
    let ds := rest.takeWhile Char.isDigit
    ds ≠ [] && (rest.drop ds.length).head? = some ')'
  | _ => false

/-- Test `/^\([A-Za-zА-Яа-яα-ω]\)/i`. -/
def startsParenLetter (s : Str) : Bool :=
  match s with
  | '(' :: c :: ')' :: _ => isMarkerLetter c
  | _ => false

/-- Test `/^—/`. -/
def startsEmDash (s : Str) : Bool := s.head? = some '—'

/-- Test `segment.endsWith(":")`. -/
def endsColon (s : Str) : Bool := s.getLast? = some ':'

/-- JavaScript word character (`\w`): ASCII letters, digits, underscore. -/
def isJSWord (c : Char) : Bool :=
  ('A' ≤ c && c ≤ 'Z') || ('a' ≤ c && c ≤ 'z') || c.isDigit || c = '_'

/-- Whether some position at/inside the letter run satisfies the `\b`
word-boundary condition (`prev` is the character left of the run start). -/
def hasBoundary (prev : Option Char) : Str → Bool
  | [] => false
  | c :: rest =>
    (match prev with
     | none => isJSWord c
     | some p => isJSWord p != isJSWord c) || hasBoundary (some c) rest

/-- Test `/\b[A-Za-zА-Яа-яα-ω]+\s+\d+$/i`. -/
def endsArticleTitle (s : Str) : Bool :=
  let r := s.reverse
  let ds := r.takeWhile Char.isDigit
  if ds = [] then false
  else
    let r2 := r.drop ds.length
    let ws := r2.takeWhile isWS
    if ws = [] then false
    else
      let r3 := r2.drop ws.length
      let run := r3.takeWhile isMarkerLetter
      if run = [] then false
      else hasBoundary ((r3.drop run.length).head?) run.reverse

/-- The `UNIVERSAL CLASSIFICATION` regex chain (tradosFormatter.ts lines
104-117), first match wins, defaulting to `normal`. -/
def classifySegment (segment : Str) : Str :=
  if startsNumDot segment then toL "article-point"
  else if startsParenNum segment then toL "preamble-point"
  else if startsParenLetter segment then toL "letter-point"
  else if startsEmDash segment then toL "bullet-point"
  else if endsColon segment then toL "section-header"
  else if endsArticleTitle segment then toL "article-title"
  else toL "normal"

/-- Model of `split("\n")` (single-character separator, empties kept). -/
def splitLinesAux : Str → Str → List Str
  | cur, [] => [cur.reverse]
  | cur, '\n' :: rest => cur.reverse :: splitLinesAux [] rest
  | cur, c :: rest => splitLinesAux (c :: cur) rest

/-- Split a string on newline characters. -/
def splitLines (l : Str) : List Str := splitLinesAux [] l

/-- The body of the `for` loop of `parseContinuousLegalText` (tradosFormatter.ts
lines 88-120): skip blank lines, clean, optionally insert tabs, classify. -/
def renderContinuousLine (rules : TradosRules) (line : Str) : Option Str :=
  let l := jsTrim line
  if l = [] then none
  else
    let seg0 := cleanTextForTrados rules l
    let segment := if rules.tabs.useTabsAfterManualNumbers then applyTabs seg0 else seg0
    some (pTag (classifySegment segment) (escapeHtml segment))

/-- The body of the `for` loop of `parseSimpleLegalText` (tradosFormatter.ts
lines 154-164): clean, optionally insert tabs, emit with the default class. -/
def renderSimpleBodyLine (rules : TradosRules) (line : Str) : Str :=
  let p0 := cleanTextForTrados rules line
  let processed := if rules.tabs.useTabsAfterManualNumbers then applyTabs p0 else p0
  pTag (toL "normal") (escapeHtml processed)

/-- `parseContinuousLegalText` (tradosFormatter.ts lines 41-124). -/
def parseContinuousLegalText (text : Str) (rules : TradosRules) : List Str :=
  let normalizedText := normalizeWS text
  let lines := ((splitLines normalizedText).map jsTrim).filter (fun l => l ≠ [])
  let title := lines.headD []
  let subtitle := if lines.length > 1 then lines.getD 1 [] else []
  let bodyLines := if lines.length > 1 then lines.drop 2 else []
  let titlePart :=
    if title ≠ [] then
      [pTag (toL "document-title") (escapeHtml (cleanTextForTrados rules title))]
    else []
  let subtitlePart :=
    if subtitle ≠ [] then
      [pTag (toL "document-subtitle") (escapeHtml (cleanTextForTrados rules subtitle))]
    else []
  let bodyPart := bodyLines.filterMap (renderContinuousLine rules)
  titlePart ++ subtitlePart ++ bodyPart

/-- `parseSimpleLegalText` (tradosFormatter.ts lines 127-170). -/
def parseSimpleLegalText (text : Str) (rules : TradosRules) : List Str :=
  if '\n' ∈ text then
    let lines := ((splitLines text).map jsTrim).filter (fun l => l ≠ [])
    let title := lines.headD []
    let subtitle := if lines.length > 1 then lines.getD 1 [] else []
    let body := lines.drop 2
    let titlePart :=
      if title ≠ [] then
        [pTag (toL "document-title") (escapeHtml (cleanTextForTrados rules title))]
      else []
    let subtitlePart :=
      if subtitle ≠ [] then
        [pTag (toL "document-subtitle") (escapeHtml (cleanTextForTrados rules subtitle))]
      else []
    let bodyPart := body.map (renderSimpleBodyLine rules)
    titlePart ++ subtitlePart ++ bodyPart
  else parseContinuousLegalText text rules

/-- The classification stage of `formatToTradosHTML` (tradosFormatter.ts lines
174 and 186): clean the raw text once, then parse it into classified
paragraph markup (the `bodyLines` interpolated into the HTML template). -/
def formatToTradosParagraphs (raw : Str) (rules : TradosRules) : List Str :=
  parseSimpleLegalText (cleanTextForTrados rules raw) rules

example :
    formatToTradosParagraphs (toL "Title\nSubtitle\n(1) First point.\n(2) Second point.")
      mkTradosRules =
    [pTag (toL "document-title") (toL "Title"),
     pTag (toL "document-subtitle") (toL "Subtitle"),
     pTag (toL "normal") (toL "(1)\tFirst point."),
     pTag (toL "normal") (toL "(2)\tSecond point.")] := by decide

example : classifySegment (toL "(1)\tFirst point.") = toL "preamble-point" := by decide
example : classifySegment (toL "Article 5") = toL "article-title" := by decide
example : classifySegment (toL "дом 9") = toL "normal" := by decide
example : applyTabs (toL "(12) x  y") = toL "(12)\tx  y" := by decide

/- ---------- splitTextIntoChunks (gemini.ts lines 213-256) ---------- -/

/-- Model of `text.split(/\n{2,}|\r\n/)`: the separator is either a maximal
run of two or more newlines or a CR-LF pair.  `cur` is the (reversed) piece
being accumulated; the flag records that we are inside a `\n{2,}` separator
run whose boundary has already been emitted. -/
def splitParasAux : Bool → Str → Str → List Str
  | _, cur, [] => [cur.reverse]
  | true, cur, '\n' :: rest => splitParasAux true cur rest
  | _, cur, '\r' :: '\n' :: rest => cur.reverse :: splitParasAux false [] rest
  | _, cur, '\n' :: '\n' :: rest => cur.reverse :: splitParasAux true [] rest
  | _, cur, c :: rest => splitParasAux false (c :: cur) rest

/-- Paragraph split of the gemini.ts chunker (line 218). -/
def splitParas (l : Str) : List Str := splitParasAux false [] l

/-- Sentence-terminal punctuation class `[.?!;]`. -/
def isSentPunct (c : Char) : Bool := c = '.' || c = '?' || c = '!' || c = ';'

/-- Maximal runs of a fixed character class: `cls` is the class of the
(reversed, nonempty) current run `cur`. -/
def runsAux (cls : Bool) (cur : Str) : Str → List Str
  | [] => [cur.reverse]
  | c :: rest =>
    if isSentPunct c = cls then runsAux cls (c :: cur) rest
    else cur.reverse :: runsAux (isSentPunct c) [c] rest

/-- Model of `p.split(/([.?!;]+)/).filter(Boolean)`: alternating maximal runs
of non-punctuation and punctuation characters, empties dropped. -/
def sentTokens : Str → List Str
  | [] => []
  | c :: rest => runsAux (isSentPunct c) [c] rest

/-- Model of the pairing loop `for (i = 0; i < sentences.length; i += 2)
sentence = sentences[i] + (sentences[i+1] || "")`. -/
def pairTokens : List Str → List Str
  | [] => []
  | [t] => [t]
  | t1 :: t2 :: rest => (t1 ++ t2) :: pairTokens rest

/-- The sentence-packing loop of the oversized-paragraph fallback
(gemini.ts lines 233-243); `subChunk` is the accumulator. -/
def packSents (maxChars : Nat) (subChunk : Str) : List Str → List Str
  | [] => if jsTrim subChunk ≠ [] then [jsTrim subChunk] else []
  | s :: rest =>
    if (subChunk ++ ' ' :: s).length > maxChars then
      (if jsTrim subChunk ≠ [] then [jsTrim subChunk] else []) ++ packSents maxChars s rest
    else packSents maxChars (subChunk ++ (if subChunk ≠ [] then ' ' :: s else s)) rest

/-- The main paragraph-accumulation loop of `splitTextIntoChunks`
(gemini.ts lines 222-255); `current` is the chunk being accumulated. -/
def chunkLoop (maxChars : Nat) (current : Str) : List Str → List Str
  | [] => if jsTrim current ≠ [] then [jsTrim current] else []
  | p :: ps =>
    if p.length > maxChars then
      (if jsTrim current ≠ [] then [jsTrim current] else []) ++
        packSents maxChars [] (pairTokens (sentTokens p)) ++ chunkLoop maxChars [] ps
    else if (current ++ '\n' :: '\n' :: p).length > maxChars then
      (if jsTrim current ≠ [] then [jsTrim current] else []) ++ chunkLoop maxChars p ps
    else chunkLoop maxChars (current ++ (if current ≠ [] then '\n' :: '\n' :: p else p)) ps

/-- `splitTextIntoChunks` (gemini.ts lines 213-256). -/
def splitTextIntoChunks (text : Str) (maxChars : Nat) : List Str :=
  chunkLoop maxChars [] (splitParas text)

/- ---------- splitTextIntoChunks (longTranslation.ts lines 52-68) ---------- -/

/-- Model of `text.split(/\n{2,}/)` (longTranslation.ts line 53). -/
def splitParasLTAux : Bool → Str → Str → List Str
  | _, cur, [] => [cur.reverse]
  | true, cur, '\n' :: rest => splitParasLTAux true cur rest
  | _, cur, '\n' :: '\n' :: rest => cur.reverse :: splitParasLTAux true [] rest
  | _, cur, c :: rest => splitParasLTAux false (c :: cur) rest

/-- Paragraph split of the longTranslation.ts chunker. -/
def splitParasLT (l : Str) : List Str := splitParasLTAux false [] l

/-- The accumulation loop of the longTranslation.ts chunker (lines 57-66);
note that the in-loop push is unguarded (`chunks.push(current.trim())`). -/
def chunkLoopLT (maxChars : Nat) (current : Str) : List Str → List Str
  | [] => if jsTrim current ≠ [] then [jsTrim current] else []
  | p :: ps =>
    if (current ++ '\n' :: '\n' :: p).length > maxChars then
      jsTrim current :: chunkLoopLT maxChars p ps
    else chunkLoopLT maxChars (current ++ (if current ≠ [] then '\n' :: '\n' :: p else p)) ps

/-- `splitTextIntoChunks` (longTranslation.ts lines 52-68). -/
def splitTextIntoChunksLT (text : Str) (maxChars : Nat) : List Str :=
  chunkLoopLT maxChars [] (splitParasLT text)

/-- Join a chunk list with the paragraph joiner used by the dispatcher. -/
def joinParas (l : List Str) : Str := List.intercalate (toL "\n\n") l

example : splitParas (toL "a\n\n\nb\r\nc\nd") = [toL "a", toL "b", toL "c\nd"] := by decide
example : splitTextIntoChunks (toL "ab.cd") 4 = [toL "ab.", toL "cd"] := by decide
example : normalizeWS (joinParas (splitTextIntoChunks (toL "ab.cd") 4)) ≠
    normalizeWS (toL "ab.cd") := by decide
example : splitTextIntoChunksLT (toL "aaaa") 5 = [[], toL "aaaa"] := by decide
example : splitTextIntoChunks (toL "aaaa") 5 = [toL "aaaa"] := by decide
example : splitTextIntoChunks (toL "p1\n\np2\n\np3") 6 = [toL "p1\n\np2", toL "p3"] := by decide

/- ---------- translation dispatcher (gemini.ts lines 18-207) ---------- -/

/-- Outcome of one HTTP request made by `fetchGeminiWithRetry`. -/
inductive FetchOutcome where
  | httpOk (body : Option Str)
  | http (status : Nat)
  | netError
deriving DecidableEq

/-- The text an attempt yields, when `response.ok` and the extracted candidate
text has nonempty trim (gemini.ts lines 193-195); otherwise the loop goes on. -/
def fetchSuccess : FetchOutcome → Option Str
  | .httpOk (some t) => if jsTrim t ≠ [] then some t else none
  | _ => none

/-- The backoff delay in milliseconds slept after a failed attempt
(gemini.ts lines 179, 186 and 203): `5000 * attempt` after HTTP 429,
`2000 * attempt` after a 5xx status, `1500 * attempt` after any thrown error
(network failure, or a non-retryable status rethrown into the catch block);
no delay after a success or an empty response body. -/
def backoffDelayMs (o : FetchOutcome) (attempt : Nat) : Option Nat :=
  match o with
  | .httpOk _ => none
  | .http status =>
      if status = 429 then some (5000 * attempt)
      else if 500 ≤ status then some (2000 * attempt)
      else some (1500 * attempt)
  | .netError => some (1500 * attempt)

/-- The retry loop of `fetchGeminiWithRetry` (gemini.ts lines 157-206):
`oracle a` is the outcome of the HTTP request of attempt `a`. -/
def fetchRetryAux (oracle : Nat → FetchOutcome) : Nat → Nat → Option Str
  | 0, _ => none
  | fuel + 1, a =>
    match fetchSuccess (oracle a) with
    | some t => some t
    | none => fetchRetryAux oracle fuel (a + 1)

/-- `fetchGeminiWithRetry` (gemini.ts lines 153-207): four attempts. -/
def fetchGeminiWithRetry (oracle : Nat → FetchOutcome) : Option Str :=
  fetchRetryAux oracle 4 1

/-- Number of HTTP requests one `fetchGeminiWithRetry` call issues. -/
def fetchRequestsAux (oracle : Nat → FetchOutcome) : Nat → Nat → Nat
  | 0, _ => 0
  | fuel + 1, a =>
    match fetchSuccess (oracle a) with
    | some _ => 1
    | none => 1 + fetchRequestsAux oracle fuel (a + 1)

/-- Number of HTTP requests issued by `fetchGeminiWithRetry`. -/
def fetchRequests (oracle : Nat → FetchOutcome) : Nat := fetchRequestsAux oracle 4 1

/-- `translateWithGemini` in chunk mode (gemini.ts lines 18-70) as seen by the
dispatcher: `none` models a thrown error, `some` the trimmed returned text. -/
def translateWithGeminiModel (oracle : Nat → FetchOutcome) : Option Str :=
  match fetchGeminiWithRetry oracle with
  | none => none
  | some t => some (jsTrim t)

/-- The per-chunk retry loop of `translateChunk` (gemini.ts lines 93-112):
`oracle a f` is the outcome of HTTP request `f` of chunk attempt `a`. -/
def chunkRetryAux (oracle : Nat → Nat → FetchOutcome) : Nat → Nat → Option Str
  | 0, _ => none
  | fuel + 1, a =>
    match translateWithGeminiModel (oracle a) with
    | some t => some t
    | none => chunkRetryAux oracle fuel (a + 1)

/-- The failure placeholder recorded for chunk `i` (gemini.ts line 115). -/
def errorPlaceholder (i : Nat) (chunk : Str) : Str :=
  toL "[ERROR in chunk " ++ (Nat.repr (i + 1)).toList ++ toL "] " ++ chunk

/-- `translateChunk` (gemini.ts lines 91-116): up to 3 attempts, then the
placeholder embedding the chunk number and the original text. -/
def translateChunkResult (i : Nat) (chunk : Str) (oracle : Nat → Nat → FetchOutcome) : Str :=
  match chunkRetryAux oracle 3 1 with
  | some t => t
  | none => errorPlaceholder i chunk

/-- Number of `translateWithGemini` calls made for one chunk. -/
def chunkAttemptsAux (oracle : Nat → Nat → FetchOutcome) : Nat → Nat → Nat
  | 0, _ => 0
  | fuel + 1, a =>
    match translateWithGeminiModel (oracle a) with
    | some _ => 1
    | none => 1 + chunkAttemptsAux oracle fuel (a + 1)

/-- Number of `translateWithGemini` calls made for one chunk. -/
def chunkAttempts (oracle : Nat → Nat → FetchOutcome) : Nat := chunkAttemptsAux oracle 3 1

/-- Number of HTTP provider requests issued for one chunk. -/
def chunkRequestsAux (oracle : Nat → Nat → FetchOutcome) : Nat → Nat → Nat
  | 0, _ => 0
  | fuel + 1, a =>
    match translateWithGeminiModel (oracle a) with
    | some _ => fetchRequests (oracle a)
    | none => fetchRequests (oracle a) + chunkRequestsAux oracle fuel (a + 1)

/-- Number of HTTP provider requests issued for one chunk. -/
def chunkRequests (oracle : Nat → Nat → FetchOutcome) : Nat := chunkRequestsAux oracle 3 1

/-- The `results` array of `translateLongDocument` (gemini.ts lines 87-141):
entry `i` is the translation of chunk `i` or its failure placeholder; the
bounded-concurrency pool only schedules the calls, every write goes to the
fixed index `i` of the chunk.  `oracle i a f` is the outcome of HTTP request
`f` of attempt `a` for chunk `i`. -/
def translateLongDocumentResults (chunks : List Str)
    (oracle : Nat → Nat → Nat → FetchOutcome) : List Str :=
  chunks.enum.map (fun ic => translateChunkResult ic.1 ic.2 (oracle ic.1))

/-- The string `translateLongDocument` returns (gemini.ts line 146):
`results.filter(Boolean).join("\n\n")`. -/
def translateLongDocumentOutput (chunks : List Str)
    (oracle : Nat → Nat → Nat → FetchOutcome) : Str :=
  joinParas ((translateLongDocumentResults chunks oracle).filter (fun s => s ≠ []))

example :
    translateLongDocumentResults [toL "aa", toL "bb"] (fun _ _ _ => FetchOutcome.netError) =
    [toL "[ERROR in chunk 1] aa", toL "[ERROR in chunk 2] bb"] := by decide

example : chunkRequests (fun _ _ => FetchOutcome.netError) = 12 := by decide

example :
    translateLongDocumentResults [toL "aa"]
      (fun _ a f => if a = 2 && f = 3 then FetchOutcome.httpOk (some (toL " ok ")) else FetchOutcome.http 503) =
    [toL "ok"] := by decide

/- ---------- extractNounPhrases (TranslatorInterface.tsx lines 199-218) ---------- -/

/-- Model of `replace(/[,;:!?()]/g, " ")`. -/
def lightPunctToSpace (s : Str) : Str :=
  s.map (fun c =>
    if c = ',' || c = ';' || c = ':' || c = '!' || c = '?' || c = '(' || c = ')' then ' '
    else c)

/-- Model of `split(/\s+/)` (empty first/last pieces kept, as in JavaScript). -/
def splitWSAux : Bool → Str → Str → List Str
  | _, cur, [] => [cur.reverse]
  | true, cur, c :: rest =>
    if isWS c then splitWSAux true cur rest else splitWSAux false [c] rest
  | false, cur, c :: rest =>
    if isWS c then cur.reverse :: splitWSAux true [] rest else splitWSAux false (c :: cur) rest

/-- Split a string on whitespace runs. -/
def splitWS (l : Str) : List Str := splitWSAux false [] l

/-- Case folding performed by the `/i` flag on the stop-word alternation
(ASCII and Cyrillic uppercase map to lowercase). -/
def lowerChar (c : Char) : Char :=
  if 'A' ≤ c && c ≤ 'Z' then Char.ofNat (c.toNat + 32)
  else if 'А' ≤ c && c ≤ 'Я' then Char.ofNat (c.toNat + 32)
  else c

/-- The stop-word alternation of `extractNounPhrases`. -/
def stopWords : List Str :=
  [toL "and", toL "or", toL "the", toL "of", toL "in", toL "on", toL "at",
   toL "to", toL "for", toL "with", toL "by", toL "и", toL "или", toL "на",
   toL "во", toL "од", toL "за", toL "со"]

/-- Model of `/^(and|or|...|со)$/i.test(word)`. -/
def isStopWord (w : Str) : Bool := stopWords.contains (w.map lowerChar)

/-- The letter test `/[A-Za-zА-Яа-я]/.test(word)`. -/
def isLetterLatCyr (c : Char) : Bool :=
  ('A' ≤ c && c ≤ 'Z') || ('a' ≤ c && c ≤ 'z') || ('А' ≤ c && c ≤ 'я')

/-- The qualification test of the `reduce` body (TranslatorInterface.tsx lines
205-210): length above 2, contains a letter, not a stop word. -/
def qualifiesWord (w : Str) : Bool :=
  decide (w.length > 2) && w.any isLetterLatCyr && !isStopWord w

/-- One iteration of the `reduce` body (TranslatorInterface.tsx lines
204-214): if the current word qualifies, the phrase `prev + " " + word` (or
the word alone when there is no previous token) is appended unless already
present; note that only the current word's qualification is consulted. -/
def npStep (prev w : Str) (acc : List Str) : List Str :=
  if qualifiesWord w then
    if (if prev ≠ [] then prev ++ ' ' :: w else w) ∈ acc then acc
    else acc ++ [if prev ≠ [] then prev ++ ' ' :: w else w]
  else acc

/-- The `reduce` of `extractNounPhrases`: `prev` plays `arr[i-1]` (`[]` is
the falsy `undefined` of `i = 0`). -/
def npAux : Str → List Str → List Str → List Str
  | _, [], acc => acc
  | prev, w :: rest, acc => npAux w rest (npStep prev w acc)

/-- `extractNounPhrases` (TranslatorInterface.tsx lines 199-218). -/
def extractNounPhrases (sentence : Str) : List Str :=
  npAux [] (splitWS (lightPunctToSpace sentence)) []

example : extractNounPhrases (toL "the court") = [toL "the court"] := by decide
example : extractNounPhrases (toL "court rules court rules") =
    [toL "court", toL "court rules", toL "rules court"] := by decide

/- ---------- handleSetDefault (FormattingRulesManager.tsx lines 33-45) ---------- -/

/-- One row of the `formatting_rules` table, as far as the default-flag
transition is concerned. -/
structure RuleRow where
  id : Str
  is_default : Bool
deriving DecidableEq, Repr

/-- A persistence `update` restricted by a row filter: every matching row gets
the partial update `f`, the others are unchanged. -/
def updateWhere (p : RuleRow → Bool) (f : RuleRow → RuleRow) (store : List RuleRow) :
    List RuleRow :=
  store.map (fun r => if p r then f r else r)

/-- `handleSetDefault` (FormattingRulesManager.tsx lines 33-45): first
`update({ is_default: false }).neq("id", b)`, then
`update({ is_default: true }).eq("id", b)`, in order. -/
def handleSetDefault (b : Str) (store : List RuleRow) : List RuleRow :=
  updateWhere (fun r => decide (r.id = b)) (fun r => { r with is_default := true })
    (updateWhere (fun r => decide (r.id ≠ b)) (fun r => { r with is_default := false }) store)

example :
    handleSetDefault (toL "B")
      [{ id := toL "A", is_default := true }, { id := toL "B", is_default := false }] =
    [{ id := toL "A", is_default := false }, { id := toL "B", is_default := true }] := by decide

/- ---------- general helper lemmas ---------- -/

theorem jsTrim_eq_rdropWhile (l : Str) :
    jsTrim l = List.rdropWhile isWS (List.dropWhile isWS l) := rfl

theorem dropWhile_eq_self_of_isPrefixOf {p : Char → Bool} {l m : Str}
    (hp : m <+: l) (hl : List.dropWhile p l = l) : List.dropWhile p m = m := by
  cases m with
  | nil => simp
  | cons c rest =>
    obtain ⟨t, ht⟩ := hp
    subst ht
    by_cases hc : p c
    · exfalso
      rw [List.cons_append, List.dropWhile_cons, if_pos hc] at hl
      have hlen := congrArg List.length hl
      have hle := (List.dropWhile_suffix (l := rest ++ t) p).sublist.length_le
      simp only [List.length_cons] at hlen
      omega
    · rw [List.dropWhile_cons, if_neg hc]

theorem jsTrim_idem (l : Str) : jsTrim (jsTrim l) = jsTrim l := by
  rw [jsTrim_eq_rdropWhile, jsTrim_eq_rdropWhile]
  rw [dropWhile_eq_self_of_isPrefixOf ( List.rdropWhile_prefix _ _)
        (List.dropWhile_idempotent _ _),
      List.rdropWhile_idempotent]

theorem jsTrim_length_le (l : Str) : (jsTrim l).length ≤ l.length := by
  rw [jsTrim_eq_rdropWhile]
  calc (List.rdropWhile isWS (List.dropWhile isWS l)).length
      ≤ (List.dropWhile isWS l).length :=
        ( List.rdropWhile_prefix _ _).sublist.length_le
    _ ≤ l.length := (List.dropWhile_suffix _).sublist.length_le

theorem mem_of_mem_jsTrim {c : Char} {l : Str} (h : c ∈ jsTrim l) : c ∈ l := by
  rw [jsTrim_eq_rdropWhile] at h
  exact (List.dropWhile_suffix isWS).sublist.subset
    (( List.rdropWhile_prefix _ _).sublist.subset h)

theorem noWS_append (a b : Str) : noWS (a ++ b) = noWS a ++ noWS b := by
  simp [noWS]

theorem noWS_reverse (l : Str) : noWS l.reverse = (noWS l).reverse := by
  simp [noWS, List.filter_reverse]

theorem noWS_dropWhile (l : Str) : noWS (l.dropWhile isWS) = noWS l := by
  induction l with
  | nil => rfl
  | cons c rest ih =>
    by_cases h : isWS c
    · rw [List.dropWhile_cons, if_pos h, ih]
      simp [noWS, h]
    · rw [List.dropWhile_cons, if_neg h]

theorem noWS_jsTrim (l : Str) : noWS (jsTrim l) = noWS l := by
  show noWS (((l.dropWhile isWS).reverse.dropWhile isWS).reverse) = noWS l
  rw [noWS_reverse, noWS_dropWhile, noWS_reverse, List.reverse_reverse, noWS_dropWhile]

theorem removeSoftHyphens_not_mem (l : Str) : '­' ∉ removeSoftHyphens l := by
  intro h
  have := List.of_mem_filter h
  simp at this

theorem removeSoftHyphens_eq_self {l : Str} (h : '­' ∉ l) :
    removeSoftHyphens l = l := by
  apply List.filter_eq_self.mpr
  intro a ha
  have hne : a ≠ '\u00AD' := fun hEq => h (hEq ▸ ha)
  simpa using hne

/- ---------- Claim C1 ---------- -/

/-- The end-to-end example input of the claim. -/
def c1Input : Str := toL "Title\nSubtitle\n(1) First point.\n(2) Second point."

/-- Claim C1 fails on the code: for the multi-line example input,
`parseSimpleLegalText` takes its line-based branch, which emits every body
line with the default class `normal`; the classification chain that would
produce `preamble-point` lives only in `parseContinuousLegalText`, which is
reached only for input without a newline.  The claimed output (two
`preamble-point` paragraphs) therefore differs from the actual output. -/
theorem C1_counterexample :
    formatToTradosParagraphs c1Input mkTradosRules ≠
      [pTag (toL "document-title") (toL "Title"),
       pTag (toL "document-subtitle") (toL "Subtitle"),
       pTag (toL "preamble-point") (toL "(1)\tFirst point."),
       pTag (toL "preamble-point") (toL "(2)\tSecond point.")] := by decide

/-- Claim C1 (amended): for the example input with tab insertion enabled, the
classification stage produces the document-title paragraph `Title`, the
document-subtitle paragraph `Subtitle`, and two paragraphs of the default
body class `normal` whose texts are `(1)\tFirst point.` and
`(2)\tSecond point.` (tabs inserted after the markers, but every body line of
a multi-line input is given the default body role). -/
theorem C1_theorem :
    formatToTradosParagraphs c1Input mkTradosRules =
      [pTag (toL "document-title") (toL "Title"),
       pTag (toL "document-subtitle") (toL "Subtitle"),
       pTag (toL "normal") (toL "(1)\tFirst point."),
       pTag (toL "normal") (toL "(2)\tSecond point.")] := by decide

/- ---------- Claim C3 ---------- -/

/-- A one-pass space collapse maps a run of 39 spaces to 2 spaces
(39 → 11 → 5 → 3 → 2), so a second pass still shortens it. -/
def c3Input : Str := 'a' :: (List.replicate 39 ' ' ++ toL "b")

/-- Claim C3 fails on the code: with the `MK_TRADOS_RULES` cleaning toggles
(both `removeMultipleSpaces` and `removeOptionalHyphens` enabled), cleaning
the string `a<39 spaces>b` twice differs from cleaning it once: one pass
leaves two spaces, a second pass collapses them to one. -/
theorem C3_counterexample :
    cleanTextForTrados mkTradosRules (cleanTextForTrados mkTradosRules c3Input) ≠
      cleanTextForTrados mkTradosRules c3Input := by decide

/-- Claim C3 (amended): `cleanTextForTrados` is idempotent for every input and
every rule configuration in which `removeMultipleSpaces` is disabled (soft
hyphen removal and trimming are idempotent); with `removeMultipleSpaces`
enabled idempotence fails, see `C3_counterexample`. -/
theorem C3_theorem (rules : TradosRules) (text : Str)
    (h : rules.cleaning.removeMultipleSpaces = false) :
    cleanTextForTrados rules (cleanTextForTrados rules text) =
      cleanTextForTrados rules text := by
  unfold cleanTextForTrados
  rw [h]
  by_cases hh : rules.cleaning.removeOptionalHyphens
  · simp only [hh, if_true, Bool.false_eq_true, if_false]
    rw [removeSoftHyphens_eq_self
          (fun hm => removeSoftHyphens_not_mem _ (mem_of_mem_jsTrim hm)),
        jsTrim_idem]
  · simp only [hh, Bool.false_eq_true, if_false]
    exact jsTrim_idem text

/-- A rule configuration with the space-collapse toggle disabled. -/
def noCollapseRules : TradosRules :=
  { cleaning := { removeMultipleSpaces := false, removeOptionalHyphens := true,
                  replaceManualLineBreaks := true }
    tabs := { useTabsAfterManualNumbers := false } }

/-- Witness for `C3_theorem` at a concrete rule set and input. -/
theorem C3_witness :
    noCollapseRules.cleaning.removeMultipleSpaces = false ∧
    cleanTextForTrados noCollapseRules
        (cleanTextForTrados noCollapseRules (toL " ab\u00ADc ")) =
      cleanTextForTrados noCollapseRules (toL " ab\u00ADc ") :=
  ⟨rfl, C3_theorem noCollapseRules (toL " ab\u00ADc ") rfl⟩

/- ---------- Claim C6 ---------- -/

theorem fetchRequestsAux_le (oracle : Nat → FetchOutcome) (fuel a : Nat) :
    fetchRequestsAux oracle fuel a ≤ fuel := by
  induction fuel generalizing a with
  | zero => simp [fetchRequestsAux]
  | succ n ih =>
    rcases h : fetchSuccess (oracle a) with _ | t <;> simp [fetchRequestsAux, h]
    have := ih (a + 1)
    omega

theorem fetchRequests_le (oracle : Nat → FetchOutcome) : fetchRequests oracle ≤ 4 :=
  fetchRequestsAux_le oracle 4 1

theorem chunkAttemptsAux_le (oracle : Nat → Nat → FetchOutcome) (fuel a : Nat) :
    chunkAttemptsAux oracle fuel a ≤ fuel := by
  induction fuel generalizing a with
  | zero => simp [chunkAttemptsAux]
  | succ n ih =>
    rcases h : translateWithGeminiModel (oracle a) with _ | t <;>
      simp [chunkAttemptsAux, h]
    have := ih (a + 1)
    omega

theorem chunkRequestsAux_le (oracle : Nat → Nat → FetchOutcome) (fuel a : Nat) :
    chunkRequestsAux oracle fuel a ≤ 4 * fuel := by
  induction fuel generalizing a with
  | zero => simp [chunkRequestsAux]
  | succ n ih =>
    rcases h : translateWithGeminiModel (oracle a) with _ | t <;>
      simp [chunkRequestsAux, h]
    · have h1 := fetchRequests_le (oracle a)
      have h2 := ih (a + 1)
      omega
    · have h1 := fetchRequests_le (oracle a)
      omega

/-- Claim C6 fails on the code: the per-chunk retry loop of `translateChunk`
makes 3 attempts, but each attempt calls `translateWithGemini`, whose
`fetchGeminiWithRetry` itself issues up to 4 HTTP requests; with every
request failing (network error), one chunk issues 12 provider requests,
not at most 3. -/
theorem C6_counterexample :
    chunkRequests (fun _ _ => FetchOutcome.netError) = 12 ∧
    ¬ chunkRequests (fun _ _ => FetchOutcome.netError) ≤ 3 := by decide

/-- Claim C6 (amended): for every chunk the dispatcher makes at most 3
`translateWithGemini` attempts before recording the failure placeholder, and
since each attempt internally retries up to 4 HTTP requests, at most 12
provider requests are issued for one chunk. -/
theorem C6_theorem (oracle : Nat → Nat → FetchOutcome) :
    chunkAttempts oracle ≤ 3 ∧ chunkRequests oracle ≤ 12 :=
  ⟨chunkAttemptsAux_le oracle 3 1, chunkRequestsAux_le oracle 3 1⟩

/- ---------- Claim C7 ---------- -/

/-- Claim C7: the backoff delay after an HTTP 429 is `5000 * attempt`,
strictly increasing in the attempt number, and at every attempt strictly
longer than the delay after a server error (`2000 * attempt`) and than the
delay after a network failure (`1500 * attempt`). -/
theorem C7_theorem (a b s : Nat) (ha : 0 < a) (hab : a < b) (hs : 500 ≤ s) :
    backoffDelayMs (FetchOutcome.http 429) a = some (5000 * a) ∧
    backoffDelayMs (FetchOutcome.http 429) b = some (5000 * b) ∧
    5000 * a < 5000 * b ∧
    backoffDelayMs (FetchOutcome.http s) a = some (2000 * a) ∧
    2000 * a < 5000 * a ∧
    backoffDelayMs FetchOutcome.netError a = some (1500 * a) ∧
    1500 * a < 5000 * a := by
  refine ⟨by simp [backoffDelayMs], by simp [backoffDelayMs], by omega, ?_, by omega,
    by simp [backoffDelayMs], by omega⟩
  have hne : s ≠ 429 := by omega
  simp [backoffDelayMs, hne, hs]

/-- Witness for `C7_theorem` at attempts 1 and 2 and status 503. -/
theorem C7_witness :
    0 < 1 ∧ 1 < 2 ∧ 500 ≤ 503 ∧
    (backoffDelayMs (FetchOutcome.http 429) 1 = some (5000 * 1) ∧
     backoffDelayMs (FetchOutcome.http 429) 2 = some (5000 * 2) ∧
     5000 * 1 < 5000 * 2 ∧
     backoffDelayMs (FetchOutcome.http 503) 1 = some (2000 * 1) ∧
     2000 * 1 < 5000 * 1 ∧
     backoffDelayMs FetchOutcome.netError 1 = some (1500 * 1) ∧
     1500 * 1 < 5000 * 1) :=
  ⟨by decide, by decide, by decide, C7_theorem 1 2 503 (by decide) (by decide) (by decide)⟩

/- ---------- Claim C9 ---------- -/

/-- The composite per-row effect of the two updates of `handleSetDefault`. -/
theorem handleSetDefault_eq_map (b : Str) (store : List RuleRow) :
    handleSetDefault b store =
      store.map (fun r => { r with is_default := decide (r.id = b) }) := by
  unfold handleSetDefault updateWhere
  rw [List.map_map]
  apply List.map_congr_left
  intro r _
  by_cases hr : r.id = b <;> simp [Function.comp, hr]

/-- Claim C9: starting from any store in which exactly one row has id `b`,
running `handleSetDefault b` (the two sequential updates, in order) leaves
exactly one row with `is_default = true`, and every defaulted row has id `b`. -/
theorem C9_theorem (b : Str) (store : List RuleRow)
    (h : store.countP (fun r => decide (r.id = b)) = 1) :
    (handleSetDefault b store).countP (fun r => r.is_default) = 1 ∧
    ∀ r ∈ handleSetDefault b store, r.is_default = true → r.id = b := by
  rw [handleSetDefault_eq_map]
  constructor
  · rw [List.countP_map]
    rw [← h]
    apply List.countP_congr
    intro r _
    by_cases hr : r.id = b <;> simp [Function.comp, hr]
  · intro r hr hd
    simp only [List.mem_map] at hr
    obtain ⟨r0, _, rfl⟩ := hr
    simp only at hd
    simpa using hd

/-- A concrete two-row store for the witness. -/
def c9Store : List RuleRow :=
  [{ id := toL "A", is_default := true }, { id := toL "B", is_default := false }]

/-- Witness for `C9_theorem` on a two-row store. -/
theorem C9_witness :
    c9Store.countP (fun r => decide (r.id = toL "B")) = 1 ∧
    ((handleSetDefault (toL "B") c9Store).countP (fun r => r.is_default) = 1 ∧
     ∀ r ∈ handleSetDefault (toL "B") c9Store, r.is_default = true → r.id = toL "B") :=
  ⟨by decide, C9_theorem (toL "B") c9Store (by decide)⟩

/- ---------- Claim C2 ---------- -/

theorem fetchSuccess_some {o : FetchOutcome} {t : Str} (h : fetchSuccess o = some t) :
    jsTrim t ≠ [] := by
  rcases o with b | s | _
  · rcases b with _ | u
    · simp [fetchSuccess] at h
    · simp only [fetchSuccess] at h
      by_cases hu : jsTrim u = []
      · rw [if_neg (by simpa using hu)] at h
        cases h
      · rw [if_pos (by simpa using hu)] at h
        cases h
        exact hu
  · simp [fetchSuccess] at h
  · simp [fetchSuccess] at h

theorem fetchRetryAux_some {oracle : Nat → FetchOutcome} {fuel a : Nat} {t : Str}
    (h : fetchRetryAux oracle fuel a = some t) : jsTrim t ≠ [] := by
  induction fuel generalizing a with
  | zero => simp [fetchRetryAux] at h
  | succ n ih =>
    rcases hs : fetchSuccess (oracle a) with _ | u
    · simp only [fetchRetryAux, hs] at h
      exact ih h
    · simp only [fetchRetryAux, hs] at h
      cases h
      exact fetchSuccess_some hs

theorem translateWithGeminiModel_some {oracle : Nat → FetchOutcome} {t : Str}
    (h : translateWithGeminiModel oracle = some t) : t ≠ [] := by
  unfold translateWithGeminiModel at h
  rcases hf : fetchGeminiWithRetry oracle with _ | v
  · rw [hf] at h
    cases h
  · rw [hf] at h
    cases h
    exact fetchRetryAux_some hf

theorem chunkRetryAux_some {oracle : Nat → Nat → FetchOutcome} {fuel a : Nat} {t : Str}
    (h : chunkRetryAux oracle fuel a = some t) : t ≠ [] := by
  induction fuel generalizing a with
  | zero => simp [chunkRetryAux] at h
  | succ n ih =>
    rcases hs : translateWithGeminiModel (oracle a) with _ | u
    · simp only [chunkRetryAux, hs] at h
      exact ih h
    · simp only [chunkRetryAux, hs] at h
      cases h
      exact translateWithGeminiModel_some hs

theorem errorPlaceholder_ne_nil (i : Nat) (chunk : Str) :
    errorPlaceholder i chunk ≠ [] := by
  have h : toL "[ERROR in chunk " ≠ [] := by decide
  simp [errorPlaceholder, h]

theorem translateChunkResult_ne_nil (i : Nat) (chunk : Str)
    (oracle : Nat → Nat → FetchOutcome) : translateChunkResult i chunk oracle ≠ [] := by
  unfold translateChunkResult
  rcases hs : chunkRetryAux oracle 3 1 with _ | t
  · exact errorPlaceholder_ne_nil i chunk
  · exact chunkRetryAux_some hs

/-- Claim C2: for every chunk list and every behavior of the per-chunk
provider calls, the dispatcher's `results` array has exactly one entry per
chunk; the entry at index `i` is chunk `i`'s own translation outcome; a chunk
whose three attempts all fail gets the placeholder that embeds its index and
its original text; and the final `filter(Boolean)` drops nothing, so the
joined output keeps all N entries in index order. -/
theorem C2_theorem (chunks : List Str) (oracle : Nat → Nat → Nat → FetchOutcome) :
    (translateLongDocumentResults chunks oracle).length = chunks.length ∧
    (∀ i, i < chunks.length →
      (translateLongDocumentResults chunks oracle)[i]? =
        some (translateChunkResult i (chunks[i]?.getD []) (oracle i))) ∧
    (∀ i, i < chunks.length → chunkRetryAux (oracle i) 3 1 = none →
      (translateLongDocumentResults chunks oracle)[i]? =
        some ((toL "[ERROR in chunk " ++ (Nat.repr (i + 1)).toList ++ toL "] ") ++
          chunks[i]?.getD [])) ∧
    (translateLongDocumentResults chunks oracle).filter (fun s => s ≠ []) =
      translateLongDocumentResults chunks oracle := by
  refine ⟨by simp [translateLongDocumentResults], ?_, ?_, ?_⟩
  · intro i hi
    have hc : chunks[i]? = some chunks[i] := List.getElem?_eq_getElem hi
    simp [translateLongDocumentResults, List.getElem?_map, List.getElem?_enum, hc]
  · intro i hi hnone
    have hc : chunks[i]? = some chunks[i] := List.getElem?_eq_getElem hi
    simp [translateLongDocumentResults, List.getElem?_map, List.getElem?_enum, hc,
      translateChunkResult, hnone, errorPlaceholder]
  · apply List.filter_eq_self.mpr
    intro s hs
    simp only [List.mem_map, translateLongDocumentResults] at hs
    obtain ⟨⟨i, c⟩, _, rfl⟩ := hs
    simpa using translateChunkResult_ne_nil i c (oracle i)

/-- Witness for `C2_theorem`: a single chunk whose every provider request
fails with a network error. -/
theorem C2_witness :
    (translateLongDocumentResults [toL "hello"] (fun _ _ _ => FetchOutcome.netError)).length
      = 1 ∧
    (translateLongDocumentResults [toL "hello"] (fun _ _ _ => FetchOutcome.netError))[0]? =
      some ((toL "[ERROR in chunk " ++ (Nat.repr 1).toList ++ toL "] ") ++ toL "hello") ∧
    (translateLongDocumentResults [toL "hello"]
        (fun _ _ _ => FetchOutcome.netError)).filter (fun s => s ≠ []) =
      translateLongDocumentResults [toL "hello"] (fun _ _ _ => FetchOutcome.netError) := by
  have h := C2_theorem [toL "hello"] (fun _ _ _ => FetchOutcome.netError)
  refine ⟨h.1, ?_, h.2.2.2⟩
  have h3 := h.2.2.1 0 (by decide) (by decide)
  simpa using h3

/- ---------- Claim C8 ---------- -/

theorem npStep_nodup (prev w : Str) (acc : List Str) (h : acc.Nodup) :
    (npStep prev w acc).Nodup := by
  unfold npStep
  by_cases hq : qualifiesWord w
  · simp only [hq, if_true]
    by_cases hin : (if prev ≠ [] then prev ++ ' ' :: w else w) ∈ acc
    · rw [if_pos hin]
      exact h
    · rw [if_neg hin, ← List.concat_eq_append]
      exact List.Nodup.concat hin h
  · simpa [hq]

theorem npAux_nodup (ws : List Str) (prev : Str) (acc : List Str) (h : acc.Nodup) :
    (npAux prev ws acc).Nodup := by
  induction ws generalizing prev acc with
  | nil => simpa [npAux] using h
  | cons w rest ih => exact ih w _ (npStep_nodup prev w acc h)

theorem npStep_shape (P : Str → Prop) (prev w : Str) (acc : List Str)
    (hacc : ∀ ph ∈ acc, P ph)
    (hnew : qualifiesWord w = true → P (if prev ≠ [] then prev ++ ' ' :: w else w)) :
    ∀ ph ∈ npStep prev w acc, P ph := by
  intro ph hph
  unfold npStep at hph
  by_cases hq : qualifiesWord w
  · simp only [hq, if_true] at hph
    by_cases hin : (if prev ≠ [] then prev ++ ' ' :: w else w) ∈ acc
    · rw [if_pos hin] at hph
      exact hacc ph hph
    · rw [if_neg hin, List.mem_append, List.mem_singleton] at hph
      rcases hph with hph | rfl
      · exact hacc ph hph
      · exact hnew hq
  · simp only [hq, if_false] at hph
    exact hacc ph hph

theorem npAux_shape (ws : List Str) (prev : Str) (acc : List Str)
    (hacc : ∀ ph ∈ acc, ∃ w, qualifiesWord w = true ∧
      (ph = w ∨ ∃ p, p ≠ [] ∧ ph = p ++ ' ' :: w)) :
    ∀ ph ∈ npAux prev ws acc, ∃ w, qualifiesWord w = true ∧
      (ph = w ∨ ∃ p, p ≠ [] ∧ ph = p ++ ' ' :: w) := by
  induction ws generalizing prev acc with
  | nil => simpa [npAux] using hacc
  | cons w rest ih =>
    intro ph hph
    refine ih w (npStep prev w acc) ?_ ph hph
    apply npStep_shape _ prev w acc hacc
    intro hq
    by_cases hprev : prev = []
    · exact ⟨w, hq, Or.inl (by simp [hprev])⟩
    · exact ⟨w, hq, Or.inr ⟨prev, hprev, by simp [hprev]⟩⟩

/-- Claim C8 fails on the code: `extractNounPhrases` merges the current
qualifying word with `arr[i-1]` without checking that the previous token
qualifies, so the sentence `the court` yields the two-word phrase
`the court`, whose first word is the stop word `the`. -/
theorem C8_counterexample :
    extractNounPhrases (toL "the court") = [toL "the court"] ∧
    isStopWord (toL "the") = true ∧
    qualifiesWord (toL "the") = false ∧
    toL "the court" = toL "the" ++ ' ' :: toL "court" := by decide

/-- Claim C8 (amended): within one sentence no duplicate phrase is emitted
(the output list is duplicate-free), and every emitted phrase is either a
single qualifying word or a two-word phrase whose second word qualifies — the
first word is the immediately preceding token, whether or not it qualifies
(it may be a stop word, see `C8_counterexample`). -/
theorem C8_theorem (sentence : Str) :
    (extractNounPhrases sentence).Nodup ∧
    ∀ ph ∈ extractNounPhrases sentence, ∃ w, qualifiesWord w = true ∧
      (ph = w ∨ ∃ p, p ≠ [] ∧ ph = p ++ ' ' :: w) :=
  ⟨npAux_nodup _ _ _ List.nodup_nil,
   npAux_shape _ _ _ (by intro ph hph; cases hph)⟩

/-- Witness for `C8_theorem` on the sentence `the court`. -/
theorem C8_witness :
    (extractNounPhrases (toL "the court")).Nodup ∧
    toL "the court" ∈ extractNounPhrases (toL "the court") ∧
    (∃ w, qualifiesWord w = true ∧
      (toL "the court" = w ∨ ∃ p, p ≠ [] ∧ toL "the court" = p ++ ' ' :: w)) :=
  ⟨(C8_theorem (toL "the court")).1, by decide,
   (C8_theorem (toL "the court")).2 (toL "the court") (by decide)⟩

/- ---------- Claim C10 ---------- -/

theorem escapeHtml_cons (c : Char) (rest : Str) :
    escapeHtml (c :: rest) = escapeChar c ++ escapeHtml rest := rfl

theorem ampOk_of_ne {c : Char} (h : c ≠ '&') (r : Str) : ampOk (c :: r) = ampOk r := by
  have step : ampOk (c :: r) =
      (if c = '&' then
        (match r with
          | 'a' :: 'm' :: 'p' :: ';' :: rr => ampOk rr
          | 'l' :: 't' :: ';' :: rr => ampOk rr
          | 'g' :: 't' :: ';' :: rr => ampOk rr
          | 'n' :: 'b' :: 's' :: 'p' :: ';' :: rr => ampOk rr
          | _ => false)
        else ampOk r) := by
    rw [ampOk.eq_def]
    rfl
  rw [step, if_neg h]

theorem ampOk_amp (r : Str) : ampOk ('&' :: 'a' :: 'm' :: 'p' :: ';' :: r) = ampOk r := rfl

theorem ampOk_lt (r : Str) : ampOk ('&' :: 'l' :: 't' :: ';' :: r) = ampOk r := rfl

theorem ampOk_gt (r : Str) : ampOk ('&' :: 'g' :: 't' :: ';' :: r) = ampOk r := rfl

theorem ampOk_nbsp (r : Str) :
    ampOk ('&' :: 'n' :: 'b' :: 's' :: 'p' :: ';' :: r) = ampOk r := rfl

theorem escapeChar_amp : escapeChar '&' = ['&', 'a', 'm', 'p', ';'] := by decide

theorem escapeChar_nbsp : escapeChar ' ' = ['&', 'n', 'b', 's', 'p', ';'] := by decide

theorem escapeChar_lt : escapeChar '<' = ['&', 'l', 't', ';'] := by decide

theorem escapeChar_gt : escapeChar '>' = ['&', 'g', 't', ';'] := by decide

theorem escapeHtml_safe (s : Str) :
    '<' ∉ escapeHtml s ∧ '>' ∉ escapeHtml s ∧ ampOk (escapeHtml s) = true := by
  induction s with
  | nil => exact ⟨by decide, by decide, rfl⟩
  | cons c rest ih =>
    obtain ⟨ih1, ih2, ih3⟩ := ih
    rw [escapeHtml_cons]
    have hmem : ∀ d : Char, d ∉ escapeChar c → d ∉ escapeHtml rest →
        d ∉ escapeChar c ++ escapeHtml rest := by
      intro d hd1 hd2 hd
      rcases List.mem_append.mp hd with hm | hm
      · exact hd1 hm
      · exact hd2 hm
    by_cases h1 : c = '&'
    · subst h1
      refine ⟨hmem _ (by decide) ih1, hmem _ (by decide) ih2, ?_⟩
      rw [escapeChar_amp, List.cons_append, List.cons_append, List.cons_append,
        List.cons_append, List.cons_append, List.nil_append, ampOk_amp]
      exact ih3
    · by_cases h2 : c = ' '
      · subst h2
        refine ⟨hmem _ (by decide) ih1, hmem _ (by decide) ih2, ?_⟩
        rw [escapeChar_nbsp, List.cons_append, List.cons_append, List.cons_append,
          List.cons_append, List.cons_append, List.cons_append, List.nil_append, ampOk_nbsp]
        exact ih3
      · by_cases h3 : c = '<'
        · subst h3
          refine ⟨hmem _ (by decide) ih1, hmem _ (by decide) ih2, ?_⟩
          rw [escapeChar_lt, List.cons_append, List.cons_append, List.cons_append,
            List.cons_append, List.nil_append, ampOk_lt]
          exact ih3
        · by_cases h4 : c = '>'
          · subst h4
            refine ⟨hmem _ (by decide) ih1, hmem _ (by decide) ih2, ?_⟩
            rw [escapeChar_gt, List.cons_append, List.cons_append, List.cons_append,
              List.cons_append, List.nil_append, ampOk_gt]
            exact ih3
          · have hesc : escapeChar c = [c] := by
              simp [escapeChar, h1, h2, h3, h4]
            rw [hesc]
            refine ⟨?_, ?_, ?_⟩
            · intro hd
              rcases List.mem_cons.mp hd with hc | hm
              · exact h3 hc.symm
              · exact ih1 hm
            · intro hd
              rcases List.mem_cons.mp hd with hc | hm
              · exact h4 hc.symm
              · exact ih2 hm
            · rw [List.singleton_append, ampOk_of_ne h1]
              exact ih3

theorem mem_optSingleton {α : Type} {P : Prop} [Decidable P] {x a : α}
    (h : a ∈ (if P then [x] else [])) : a = x := by
  split at h
  · exact List.mem_singleton.mp h
  · cases h

theorem renderContinuousLine_shape {rules : TradosRules} {line para : Str}
    (h : renderContinuousLine rules line = some para) :
    ∃ cls x, para = pTag cls (escapeHtml x) := by
  simp only [renderContinuousLine] at h
  by_cases hl : jsTrim line = []
  · rw [if_pos hl] at h
    cases h
  · rw [if_neg hl] at h
    exact ⟨_, _, (Option.some_injective _ h).symm⟩

theorem mem_parseContinuousLegalText {text : Str} {rules : TradosRules} {para : Str}
    (h : para ∈ parseContinuousLegalText text rules) :
    ∃ cls x, para = pTag cls (escapeHtml x) := by
  simp only [parseContinuousLegalText] at h
  rcases List.mem_append.mp h with h | h
  · rcases List.mem_append.mp h with h | h
    · exact ⟨_, _, mem_optSingleton h⟩
    · exact ⟨_, _, mem_optSingleton h⟩
  · rw [List.mem_filterMap] at h
    obtain ⟨line, _, hline⟩ := h
    exact renderContinuousLine_shape hline

theorem mem_parseSimpleLegalText {text : Str} {rules : TradosRules} {para : Str}
    (h : para ∈ parseSimpleLegalText text rules) :
    ∃ cls x, para = pTag cls (escapeHtml x) := by
  unfold parseSimpleLegalText at h
  split at h
  · simp only at h
    rcases List.mem_append.mp h with h | h
    · rcases List.mem_append.mp h with h | h
      · exact ⟨_, _, mem_optSingleton h⟩
      · exact ⟨_, _, mem_optSingleton h⟩
    · rw [List.mem_map] at h
      obtain ⟨line, _, rfl⟩ := h
      exact ⟨_, _, rfl⟩
  · exact mem_parseContinuousLegalText h

/-- Claim C10: every paragraph emitted by the parsing stage is a `<p>` tag
whose embedded content went through `escapeHtml`, and that content contains
no raw `<`, no raw `>`, and every `&` only as the start of a produced entity
(`&amp;` `&lt;` `&gt;` `&nbsp;`) — input text cannot inject markup. -/
theorem C10_theorem (text : Str) (rules : TradosRules) :
    ∀ para ∈ parseSimpleLegalText text rules, ∃ cls content,
      para = pTag cls content ∧
      '<' ∉ content ∧ '>' ∉ content ∧ ampOk content = true := by
  intro para hpara
  obtain ⟨cls, x, rfl⟩ := mem_parseSimpleLegalText hpara
  obtain ⟨hx1, hx2, hx3⟩ := escapeHtml_safe x
  exact ⟨cls, escapeHtml x, rfl, hx1, hx2, hx3⟩

/-- Witness for `C10_theorem` on an input containing `<`, `>` and `&`. -/
theorem C10_witness :
    pTag (toL "document-title") (escapeHtml (toL "a<b&c>d")) ∈
        parseSimpleLegalText (toL "a<b&c>d") mkTradosRules ∧
    (∃ cls content,
      pTag (toL "document-title") (escapeHtml (toL "a<b&c>d")) = pTag cls content ∧
      '<' ∉ content ∧ '>' ∉ content ∧ ampOk content = true) :=
  ⟨by decide, C10_theorem (toL "a<b&c>d") mkTradosRules _ (by decide)⟩

/- ---------- Claim C5 ---------- -/

theorem mem_trimGuard {sub c : Str}
    (h : c ∈ (if jsTrim sub ≠ [] then [jsTrim sub] else [])) : jsTrim c = c ∧ c ≠ [] := by
  split at h
  next hne =>
    rcases List.mem_singleton.mp h with rfl
    exact ⟨jsTrim_idem sub, hne⟩
  next => cases h

theorem packSents_mem (maxChars : Nat) (sents : List Str) (sub : Str) :
    ∀ c ∈ packSents maxChars sub sents, jsTrim c = c ∧ c ≠ [] := by
  induction sents generalizing sub with
  | nil =>
    intro c hc
    unfold packSents at hc
    exact mem_trimGuard hc
  | cons sNext rest ih =>
    intro c hc
    unfold packSents at hc
    split at hc
    · rcases List.mem_append.mp hc with hc | hc
      · exact mem_trimGuard hc
      · exact ih sNext c hc
    · exact ih _ c hc

theorem chunkLoop_mem (maxChars : Nat) (ps : List Str) (current : Str) :
    ∀ c ∈ chunkLoop maxChars current ps, jsTrim c = c ∧ c ≠ [] := by
  induction ps generalizing current with
  | nil =>
    intro c hc
    unfold chunkLoop at hc
    exact mem_trimGuard hc
  | cons p rest ih =>
    intro c hc
    unfold chunkLoop at hc
    split at hc
    · rcases List.mem_append.mp hc with hc | hc
      · rcases List.mem_append.mp hc with hc | hc
        · exact mem_trimGuard hc
        · exact packSents_mem _ _ _ c hc
      · exact ih [] c hc
    · split at hc
      · rcases List.mem_append.mp hc with hc | hc
        · exact mem_trimGuard hc
        · exact ih p c hc
      · exact ih _ c hc

/-- Claim C5 fails for the longTranslation.ts chunker: its in-loop push
`chunks.push(current.trim())` is unguarded, so when the very first paragraph
already overflows the empty accumulator, the empty string is emitted as a
chunk. -/
theorem C5_counterexample :
    splitTextIntoChunksLT (toL "aaaa") 5 = [[], toL "aaaa"] ∧
    [] ∈ splitTextIntoChunksLT (toL "aaaa") 5 := by decide

/-- Claim C5 (amended): every chunk returned by the gemini.ts chunker is
already trimmed and non-empty (both push sites are guarded by
`if (x.trim())`); the longTranslation.ts variant violates the claim, see
`C5_counterexample`. -/
theorem C5_theorem (text : Str) (maxChars : Nat) :
    ∀ c ∈ splitTextIntoChunks text maxChars, jsTrim c = c ∧ c ≠ [] :=
  fun c hc => chunkLoop_mem maxChars (splitParas text) [] c hc

/-- Witness for `C5_theorem`. -/
theorem C5_witness :
    toL "a" ∈ splitTextIntoChunks (toL "a") 10 ∧
    (jsTrim (toL "a") = toL "a" ∧ toL "a" ≠ []) :=
  ⟨by decide, C5_theorem (toL "a") 10 (toL "a") (by decide)⟩

/- ---------- Claim C4 ---------- -/

/-- The concatenated non-whitespace content of a chunk list. -/
def noWSConcat (l : List Str) : Str := (l.map noWS).flatten

theorem noWS_nil : noWS ([] : Str) = [] := rfl

theorem noWSConcat_nil : noWSConcat [] = [] := rfl

theorem noWSConcat_append (a b : List Str) :
    noWSConcat (a ++ b) = noWSConcat a ++ noWSConcat b := by
  simp [noWSConcat]

theorem noWSConcat_cons (a : Str) (b : List Str) :
    noWSConcat (a :: b) = noWS a ++ noWSConcat b := by
  simp [noWSConcat]

theorem noWS_flatten (L : List Str) : noWS L.flatten = noWSConcat L := by
  unfold noWSConcat noWS
  exact List.filter_flatten ..

theorem noWS_of_jsTrim_nil {sub : Str} (h : jsTrim sub = []) : noWS sub = [] := by
  rw [← noWS_jsTrim, h]
  rfl

theorem noWSConcat_trimGuard (sub : Str) :
    noWSConcat (if jsTrim sub ≠ [] then [jsTrim sub] else []) = noWS sub := by
  split
  · simp [noWSConcat, noWS_jsTrim]
  next h =>
    rw [not_ne_iff] at h
    rw [noWS_of_jsTrim_nil h]
    rfl

theorem noWS_cons_ws {c : Char} (h : isWS c = true) (l : Str) :
    noWS (c :: l) = noWS l := by
  simp [noWS, h]

theorem noWS_cons_not_ws {c : Char} (h : isWS c = false) (l : Str) :
    noWS (c :: l) = c :: noWS l := by
  simp [noWS, h]

theorem noWSConcat_intersperse_nl :
    ∀ L : List Str, noWSConcat (L.intersperse (toL "\n\n")) = noWSConcat L
  | [] => rfl
  | [a] => rfl
  | a :: b :: t => by
    have hrec := noWSConcat_intersperse_nl (b :: t)
    show noWSConcat (a :: toL "\n\n" :: List.intersperse (toL "\n\n") (b :: t)) =
      noWSConcat (a :: b :: t)
    rw [noWSConcat_cons, noWSConcat_cons, hrec]
    have hnl : noWS (toL "\n\n") = [] := by decide
    rw [hnl, List.nil_append]
    simp [noWSConcat_cons]

theorem noWS_joinParas (L : List Str) : noWS (joinParas L) = noWSConcat L := by
  show noWS (List.intercalate (toL "\n\n") L) = noWSConcat L
  rw [show List.intercalate (toL "\n\n") L = (L.intersperse (toL "\n\n")).flatten from rfl,
    noWS_flatten, noWSConcat_intersperse_nl]

theorem pairTokens_flatten : ∀ ts : List Str, (pairTokens ts).flatten = ts.flatten
  | [] => rfl
  | [t] => by simp [pairTokens]
  | t1 :: t2 :: rest => by
    show ((t1 ++ t2) :: pairTokens rest).flatten = (t1 :: t2 :: rest).flatten
    rw [List.flatten_cons, pairTokens_flatten rest]
    simp [List.append_assoc]

theorem runsAux_flatten (l : Str) : ∀ (cls : Bool) (cur : Str),
    (runsAux cls cur l).flatten = cur.reverse ++ l := by
  induction l with
  | nil => intro cls cur; simp [runsAux]
  | cons c rest ih =>
    intro cls cur
    unfold runsAux
    split
    · rw [ih]
      simp
    · rw [List.flatten_cons, ih]
      simp

theorem sentTokens_flatten : ∀ p : Str, (sentTokens p).flatten = p
  | [] => rfl
  | c :: rest => by
    show (runsAux (isSentPunct c) [c] rest).flatten = c :: rest
    rw [runsAux_flatten]
    rfl

theorem packSents_noWS (maxChars : Nat) :
    ∀ (sents : List Str) (sub : Str),
      noWSConcat (packSents maxChars sub sents) = noWS sub ++ noWSConcat sents := by
  intro sents
  induction sents with
  | nil =>
    intro sub
    unfold packSents
    rw [noWSConcat_trimGuard, noWSConcat_nil, List.append_nil]
  | cons s rest ih =>
    intro sub
    unfold packSents
    split
    · rw [noWSConcat_append, noWSConcat_trimGuard, ih, noWSConcat_cons]
    · rw [ih, noWSConcat_cons]
      by_cases hsub : sub = []
      · rw [if_neg (by simp [hsub]), hsub, noWS_nil, List.nil_append, List.nil_append]
      · rw [if_pos hsub, noWS_append, noWS_cons_ws (by decide), List.append_assoc]

theorem chunkLoop_noWS (maxChars : Nat) :
    ∀ (ps : List Str) (current : Str),
      noWSConcat (chunkLoop maxChars current ps) = noWS current ++ noWSConcat ps := by
  intro ps
  induction ps with
  | nil =>
    intro current
    unfold chunkLoop
    rw [noWSConcat_trimGuard, noWSConcat_nil, List.append_nil]
  | cons p rest ih =>
    intro current
    unfold chunkLoop
    split
    · have h1 : noWSConcat (pairTokens (sentTokens p)) = noWS p := by
        rw [← noWS_flatten, pairTokens_flatten, sentTokens_flatten]
      rw [noWSConcat_append, noWSConcat_append, noWSConcat_trimGuard, ih,
        packSents_noWS, h1, noWS_nil, List.nil_append, List.nil_append,
        noWSConcat_cons, List.append_assoc]
    · split
      · rw [noWSConcat_append, noWSConcat_trimGuard, ih, noWSConcat_cons]
      · rw [ih, noWSConcat_cons]
        by_cases hcur : current = []
        · rw [if_neg (by simp [hcur]), hcur, noWS_nil, List.nil_append, List.nil_append]
        · rw [if_pos hcur, noWS_append, noWS_cons_ws (by decide),
            noWS_cons_ws (by decide), List.append_assoc]

theorem splitParasAux_noWS (b : Bool) (cur l : Str) :
    noWSConcat (splitParasAux b cur l) = noWS cur.reverse ++ noWS l := by
  induction b, cur, l using splitParasAux.induct with
  | case1 b cur =>
    simp only [splitParasAux, noWSConcat_cons, noWSConcat_nil, noWS_nil, List.append_nil]
  | case2 cur rest ih =>
    simp only [splitParasAux]
    rw [ih, noWS_cons_ws (by decide)]
  | case3 b cur rest ih =>
    simp only [splitParasAux]
    rw [noWSConcat_cons, ih, noWS_cons_ws (by decide), noWS_cons_ws (by decide)]
    simp [noWS_nil]
  | case4 b cur rest hb ih =>
    simp only [splitParasAux]
    rw [noWSConcat_cons, ih, noWS_cons_ws (by decide), noWS_cons_ws (by decide)]
    simp [noWS_nil]
  | case5 b cur c rest h1 h2 h3 ih =>
    simp only [splitParasAux]
    rw [ih]
    by_cases hc : isWS c
    · rw [noWS_cons_ws hc, List.reverse_cons, noWS_append, noWS_cons_ws hc]
      simp [noWS_nil]
    · rw [noWS_cons_not_ws (by simpa using hc), List.reverse_cons, noWS_append,
        noWS_cons_not_ws (by simpa using hc)]
      simp [noWS_nil, List.append_assoc]

theorem splitTextIntoChunks_noWS (text : Str) (maxChars : Nat) :
    noWS (joinParas (splitTextIntoChunks text maxChars)) = noWS text := by
  unfold splitTextIntoChunks splitParas
  rw [noWS_joinParas, chunkLoop_noWS, splitParasAux_noWS]
  simp [noWS_nil]

theorem packSents_size (maxChars : Nat) :
    ∀ (sents : List Str) (sub : Str), ∀ c ∈ packSents maxChars sub sents,
      c.length ≤ maxChars ∨ c = jsTrim sub ∨ ∃ s ∈ sents, c = jsTrim s := by
  intro sents
  induction sents with
  | nil =>
    intro sub c hc
    unfold packSents at hc
    split at hc
    · rcases List.mem_singleton.mp hc with rfl
      exact Or.inr (Or.inl rfl)
    · cases hc
  | cons s rest ih =>
    intro sub c hc
    unfold packSents at hc
    split at hc
    · rcases List.mem_append.mp hc with hc | hc
      · split at hc
        · rcases List.mem_singleton.mp hc with rfl
          exact Or.inr (Or.inl rfl)
        · cases hc
      · rcases ih s c hc with h | h | h
        · exact Or.inl h
        · exact Or.inr (Or.inr ⟨s, List.mem_cons_self s rest, h⟩)
        · obtain ⟨t, ht, rfl⟩ := h
          exact Or.inr (Or.inr ⟨t, List.mem_cons_of_mem s ht, rfl⟩)
    next hfit =>
      rcases ih _ c hc with h | h | h
      · exact Or.inl h
      · refine Or.inl ?_
        have hlen : (sub ++ (if sub ≠ [] then ' ' :: s else s)).length ≤ maxChars := by
          rw [not_lt] at hfit
          by_cases hsub : sub = []
          · rw [if_neg (by simp [hsub])]
            simp only [hsub, List.nil_append, List.length_append, List.length_cons,
              List.length_nil] at hfit ⊢
            omega
          · rw [if_pos hsub]
            simpa using hfit
        calc c.length = (jsTrim (sub ++ (if sub ≠ [] then ' ' :: s else s))).length := by
              rw [h]
          _ ≤ (sub ++ (if sub ≠ [] then ' ' :: s else s)).length := jsTrim_length_le _
          _ ≤ maxChars := hlen
      · obtain ⟨t, ht, rfl⟩ := h
        exact Or.inr (Or.inr ⟨t, List.mem_cons_of_mem s ht, rfl⟩)

theorem chunkLoop_size (maxChars : Nat) :
    ∀ (ps : List Str) (current : Str), current.length ≤ maxChars →
      ∀ c ∈ chunkLoop maxChars current ps,
        c.length ≤ maxChars ∨
        ∃ p ∈ ps, p.length > maxChars ∧
          ∃ s ∈ pairTokens (sentTokens p), c = jsTrim s := by
  intro ps
  induction ps with
  | nil =>
    intro current hcur c hc
    unfold chunkLoop at hc
    split at hc
    · rcases List.mem_singleton.mp hc with rfl
      exact Or.inl (le_trans (jsTrim_length_le _) hcur)
    · cases hc
  | cons p rest ih =>
    intro current hcur c hc
    unfold chunkLoop at hc
    split at hc
    next hp =>
      rcases List.mem_append.mp hc with hc | hc
      · rcases List.mem_append.mp hc with hc | hc
        · split at hc
          · rcases List.mem_singleton.mp hc with rfl
            exact Or.inl (le_trans (jsTrim_length_le _) hcur)
          · cases hc
        · rcases packSents_size maxChars _ [] c hc with h | h | h
          · exact Or.inl h
          · exact Or.inl (by simp [h, jsTrim])
          · obtain ⟨s, hs, rfl⟩ := h
            exact Or.inr ⟨p, List.mem_cons_self p rest, hp, s, hs, rfl⟩
      · rcases ih [] (Nat.zero_le _) c hc with h | h
        · exact Or.inl h
        · obtain ⟨q, hq, hrest⟩ := h
          exact Or.inr ⟨q, List.mem_cons_of_mem p hq, hrest⟩
    next hp =>
      split at hc
      next hov =>
        rcases List.mem_append.mp hc with hc | hc
        · split at hc
          · rcases List.mem_singleton.mp hc with rfl
            exact Or.inl (le_trans (jsTrim_length_le _) hcur)
          · cases hc
        · rcases ih p (by omega) c hc with h | h
          · exact Or.inl h
          · obtain ⟨q, hq, hrest⟩ := h
            exact Or.inr ⟨q, List.mem_cons_of_mem p hq, hrest⟩
      next hov =>
        have hlen : (current ++ (if current ≠ [] then '\n' :: '\n' :: p else p)).length ≤
            maxChars := by
          rw [not_lt] at hov
          by_cases hcur0 : current = []
          · rw [if_neg (by simp [hcur0])]
            simp only [hcur0, List.nil_append]
            omega
          · rw [if_pos hcur0]
            simpa using hov
        rcases ih _ hlen c hc with h | h
        · exact Or.inl h
        · obtain ⟨q, hq, hrest⟩ := h
          exact Or.inr ⟨q, List.mem_cons_of_mem p hq, hrest⟩

/-- Claim C4 fails on the code: for the text `ab.cd` with `maxChars = 4`, the
oversized-paragraph fallback splits at the sentence boundary and the rejoined
chunks are `ab.\n\ncd` — whitespace now stands where the original had none, so
the rejoined text differs from the original even after collapsing whitespace
runs (the whitespace-normalization reading of the claim). -/
theorem C4_counterexample :
    splitTextIntoChunks (toL "ab.cd") 4 = [toL "ab.", toL "cd"] ∧
    normalizeWS (joinParas (splitTextIntoChunks (toL "ab.cd") 4)) ≠
      normalizeWS (toL "ab.cd") := by decide

/-- Claim C4 (amended): rejoining the chunker's output with the paragraph
joiner preserves the sequence of non-whitespace characters exactly (the
original is recovered up to whitespace insertion/removal — not merely up to
collapsing whitespace runs, since the sentence fallback inserts separators
where the original had no whitespace, see `C4_counterexample`), and every
chunk is at most `maxChars` long except a chunk that is a single (trimmed)
sentence of an oversized paragraph. -/
theorem C4_theorem (text : Str) (maxChars : Nat) :
    noWS (joinParas (splitTextIntoChunks text maxChars)) = noWS text ∧
    ∀ c ∈ splitTextIntoChunks text maxChars,
      c.length ≤ maxChars ∨
      ∃ p ∈ splitParas text, p.length > maxChars ∧
        ∃ s ∈ pairTokens (sentTokens p), c = jsTrim s :=
  ⟨splitTextIntoChunks_noWS text maxChars,
   fun c hc => chunkLoop_size maxChars (splitParas text) [] (Nat.zero_le _) c hc⟩

/-- Witness for `C4_theorem` on the fallback example. -/
theorem C4_witness :
    noWS (joinParas (splitTextIntoChunks (toL "ab.cd") 4)) = noWS (toL "ab.cd") ∧
    toL "ab." ∈ splitTextIntoChunks (toL "ab.cd") 4 ∧
    ((toL "ab.").length ≤ 4 ∨
      ∃ p ∈ splitParas (toL "ab.cd"), p.length > 4 ∧
        ∃ s ∈ pairTokens (sentTokens p), toL "ab." = jsTrim s) :=
  ⟨(C4_theorem (toL "ab.cd") 4).1, by decide,
   (C4_theorem (toL "ab.cd") 4).2 (toL "ab.") (by decide)⟩
